import Mathlib

/-!
# Warehouse inventory app: ledger, aggregation and operation semantics

Shallow embedding of `app.py`, a single-page Streamlit inventory form.
Strings are modelled as `List Char` (Python `str.upper` is modelled on the
basic-latin range, matching `Char.toUpper`); the Google-Sheets backing
store is modelled as the stored list of rows together with a schedule of
outcomes for successive write attempts.
-/

namespace WarehouseApp

/-- The closed set of locations offered by the `st.selectbox` on line 56. -/
inductive Location where
  | Warehouse
  | Assembly
  | Suspect
deriving DecidableEq, Repr

/-- The two submission directions, from the ADD / SUB buttons. -/
inductive Direction where
  | add
  | sub
deriving DecidableEq, Repr

/-- One transaction row of the ledger (the columns of `Sheet1`, line 40). -/
structure Row where
  timestamp : List Char
  action : List Char
  model : List Char
  location : Location
  quantity : Int
deriving DecidableEq, Repr

/-- The ledger: the ordered sequence of committed transaction rows. -/
abbrev Ledger := List Row

/-- Python `str.upper()` on a string, basic-latin range. -/
def upperStr (s : List Char) : List Char := s.map Char.toUpper

/-- The whitespace test behind Python `str.strip()`. -/
def isWsChar (c : Char) : Bool := c.isWhitespace

/-- Python `str.strip()`: remove leading and trailing whitespace. -/
def trimStr (s : List Char) : List Char :=
  ((s.dropWhile isWsChar).reverse.dropWhile isWsChar).reverse

/-- Line 102: `model_typed = model_typed_raw.upper().strip()`. -/
def normalizeModel (s : List Char) : List Char := trimStr (upperStr s)

/-- The quick-select placeholder option (lines 72, 87). -/
def placeholder : List Char := "-- Type/Scan New Model Below --".data

/-- Lines 104-110: prioritize the dropdown selection if it is used,
otherwise the normalized typed text, otherwise the empty model. -/
def selectModel (model_selected : Option (List Char)) (model_typed_raw : List Char) :
    List Char :=
  let model_typed := normalizeModel model_typed_raw
  match model_selected with
  | some s =>
    if s ≠ [] ∧ s ≠ placeholder then s
    else if model_typed ≠ [] then model_typed
    else []
  | none =>
    if model_typed ≠ [] then model_typed
    else []

/-- Outcome of one `conn.update` call against the backing sheet. -/
inductive WriteOutcome where
  | ok
  | rateLimited
  | otherError
deriving DecidableEq, Repr

/-- The backing sheet: its current rows plus the environment's schedule of
outcomes for the forthcoming write attempts (an empty schedule means every
attempt succeeds). -/
structure Store where
  contents : Ledger
  outcomes : List WriteOutcome
deriving DecidableEq, Repr

/-- One `conn.update(worksheet, data)` call: consumes the next scheduled
outcome; on success the sheet now holds `data`, on failure it is untouched. -/
def tryWrite (s : Store) (data : Ledger) : Store × WriteOutcome :=
  match s.outcomes with
  | [] => ({ contents := data, outcomes := [] }, .ok)
  | .ok :: rest => ({ contents := data, outcomes := rest }, .ok)
  | o :: rest => ({ contents := s.contents, outcomes := rest }, o)

/-- Observable result of one mutating operation: the store afterwards,
whether a write was committed, how many write attempts were made, and
whether a local user-facing error/warning was shown instead of writing. -/
structure OpResult where
  store : Store
  committed : Bool
  attempts : Nat
  userError : Bool
deriving DecidableEq, Repr

/-- Line 119: `action_word = "Added" if direction == "add" else "Removed"`. -/
def actionWord : Direction → List Char
  | .add => "Added".data
  | .sub => "Removed".data

/-- Line 118: `change = qty if direction == "add" else -qty`. -/
def change (direction : Direction) (qty : Int) : Int :=
  match direction with
  | .add => qty
  | .sub => -qty

/-- Lines 113-143, `modify_inventory(direction)`: reject an empty model with
a local error; otherwise build the new row, append it and write the whole
ledger back with a single `conn.update` call. -/
def modify_inventory (s : Store) (ts model : List Char) (loc : Location)
    (qty : Int) (direction : Direction) : OpResult :=
  let df_log := s.contents
  if model = [] then
    { store := s, committed := false, attempts := 0, userError := true }
  else
    let new_row : Row :=
      { timestamp := ts, action := actionWord direction, model := model,
        location := loc, quantity := change direction qty }
    let updated_df := df_log ++ [new_row]
    match tryWrite s updated_df with
    | (s', .ok) => { store := s', committed := true, attempts := 1, userError := false }
    | (s', _) => { store := s', committed := false, attempts := 1, userError := false }

/-- Lines 145-156, `undo_last()`: warn when the ledger is empty, otherwise
drop the very last row (`df_log.iloc[:-1]`) and write the result back. -/
def undo_last (s : Store) : OpResult :=
  let df_log := s.contents
  if df_log.isEmpty then
    { store := s, committed := false, attempts := 0, userError := true }
  else
    let updated_df := df_log.dropLast
    match tryWrite s updated_df with
    | (s', .ok) => { store := s', committed := true, attempts := 1, userError := false }
    | (s', _) => { store := s', committed := false, attempts := 1, userError := false }

/-- Lines 234-240: the wipe button overwrites the sheet with a blank slate. -/
def wipe_database (s : Store) : OpResult :=
  match tryWrite s [] with
  | (s', .ok) => { store := s', committed := true, attempts := 1, userError := false }
  | (s', _) => { store := s', committed := false, attempts := 1, userError := false }

/-- Bool test for a row belonging to a (model, location) aggregation group. -/
def mkey (m : List Char) (l : Location) (r : Row) : Bool :=
  decide (r.model = m ∧ r.location = l)

/-- Lines 179, 185-187: the net effect of `groupby(['Model','Location'])
['Quantity'].sum()` followed by selecting one location: the sum of the
signed quantities of the ledger rows in that (model, location) group. -/
def subtotal (L : Ledger) (m : List Char) (l : Location) : Int :=
  ((L.filter (mkey m l)).map Row.quantity).sum

/-- Lexicographic comparison of strings by code point (Python `sorted`). -/
def lexLt : List Char → List Char → Bool
  | [], [] => false
  | [], _ :: _ => true
  | _ :: _, [] => false
  | a :: s, b :: t => if a = b then lexLt s t else decide (a < b)

/-- Insertion step of insertion sort with comparison `lexLt`. -/
def insertSorted (x : List Char) : List (List Char) → List (List Char)
  | [] => [x]
  | y :: ys => if lexLt x y then x :: y :: ys else y :: insertSorted x ys

/-- Insertion sort with comparison `lexLt` (models Python `sorted`). -/
def sortStrs : List (List Char) → List (List Char)
  | [] => []
  | x :: xs => insertSorted x (sortStrs xs)

/-- Line 180: `unique_models = sorted(summary['Model'].unique())`. -/
def uniqueModels (L : Ledger) : List (List Char) :=
  sortStrs ((L.map Row.model).dedup)

/-- One row of the Live List report (lines 191-197). -/
structure ReportRow where
  model : List Char
  warehouse : Int
  assembly : Int
  total : Int
  suspect : Int
deriving DecidableEq, Repr

/-- Lines 185-197: the report entry computed for one model. -/
def reportRow (L : Ledger) (m : List Char) : ReportRow :=
  let wh := subtotal L m .Warehouse
  let asm := subtotal L m .Assembly
  let susp := subtotal L m .Suspect
  { model := m, warehouse := wh, assembly := asm, total := wh + asm, suspect := susp }

/-- Lines 176-197: the aggregate view, one entry per distinct model, kept
only when `total != 0 or susp != 0`. -/
def report_rows (L : Ledger) : List ReportRow :=
  (uniqueModels L).filterMap (fun m =>
    let rr := reportRow L m
    if rr.total ≠ 0 ∨ rr.suspect ≠ 0 then some rr else none)

/-- A subtotal field of a report entry, selected by location. -/
def viewSubtotal (rr : ReportRow) : Location → Int
  | .Warehouse => rr.warehouse
  | .Assembly => rr.assembly
  | .Suspect => rr.suspect

/-- Matching a Python regular expression made of literal characters and the
any-character dot against the start of a text; patterns using other regex
syntax are outside this model. -/
def reMatchHere : List Char → List Char → Bool
  | [], _ => true
  | _ :: _, [] => false
  | p :: ps, c :: cs =>
    (if p = '.' then c != '\n' else p == c) && reMatchHere ps cs

/-- Python `re.search` for the same pattern fragment: the pattern matches
at some position of the text. -/
def reSearch (pat : List Char) : List Char → Bool
  | [] => reMatchHere pat []
  | c :: cs => reMatchHere pat (c :: cs) || reSearch pat cs

/-- Characters that are metacharacters of Python regular expressions. -/
def isRegexMeta (c : Char) : Bool :=
  (['.', '^', '$', '*', '+', '?', '\x7b', '\x7d', '[', ']', '\\', '|', '(', ')'] :
    List Char).contains c

/-- Lines 199-205: the displayed table; a non-empty search keeps the report
entries whose model matches `search.upper()` under pandas `str.contains`
(whose default is regular-expression matching). -/
def df_display (L : Ledger) (search : List Char) : List ReportRow :=
  let rows := report_rows L
  if search = [] then rows
  else rows.filter (fun rr => reSearch (upperStr search) rr.model)

/-- Literal matching of a needle against the start of a haystack. -/
def substrAt : List Char → List Char → Bool
  | [], _ => true
  | _ :: _, [] => false
  | a :: ns, b :: hs => a == b && substrAt ns hs

/-- Substring containment, following the spec's words ("contains the search
string as a substring"); to be compared with the code's regex filter. -/
def spec_containsSubstring (needle : List Char) : List Char → Bool
  | [] => substrAt needle []
  | c :: cs => substrAt needle (c :: cs) || spec_containsSubstring needle cs

/-- Case-insensitive substring containment, following the spec's words
("matched case-insensitively"). -/
def spec_containsCI (needle hay : List Char) : Bool :=
  spec_containsSubstring (upperStr needle) (upperStr hay)

/-- Lines 20-26: `correct_password = st.secrets.get("app_password",
"blackbelt")` followed by `pwd == correct_password`. -/
def login_check (app_password : Option String) (pwd : String) : Bool :=
  let correct_password := app_password.getD "blackbelt"
  pwd == correct_password

/-- Modelled from the spec: the retry policy claimed in §5/§7 — up to the
given number of attempts, retrying only while the failure looks like a
rate-limit error. Returns the store, the final outcome and the number of
attempts used. -/
def spec_retryWrite (data : Ledger) : Store → Nat → Store × WriteOutcome × Nat
  | s, 0 => (s, .rateLimited, 0)
  | s, n + 1 =>
    match tryWrite s data with
    | (s', .ok) => (s', .ok, 1)
    | (s', .otherError) => (s', .otherError, 1)
    | (s', .rateLimited) =>
      if n = 0 then (s', .rateLimited, 1)
      else
        match spec_retryWrite data s' n with
        | (s'', o, k) => (s'', o, k + 1)

/-- Modelled from the spec: transaction submission as the claim describes
it, identical to `modify_inventory` except that the single write call is
replaced by the claimed up-to-3-attempts retry loop. -/
def spec_modify_inventory (s : Store) (ts model : List Char) (loc : Location)
    (qty : Int) (direction : Direction) : OpResult :=
  let df_log := s.contents
  if model = [] then
    { store := s, committed := false, attempts := 0, userError := true }
  else
    let new_row : Row :=
      { timestamp := ts, action := actionWord direction, model := model,
        location := loc, quantity := change direction qty }
    let updated_df := df_log ++ [new_row]
    match spec_retryWrite updated_df s 3 with
    | (s', .ok, k) => { store := s', committed := true, attempts := k, userError := false }
    | (s', _, k) => { store := s', committed := false, attempts := k, userError := false }

/-- One UI-level mutating step on the ledger: a submission built from the
widget state (quantity at least 1 from the `number_input` on line 58, the
dropdown offering only the placeholder and models already in the ledger,
lines 64-93), an undo, or a wipe; each against an arbitrary schedule of
write outcomes. -/
inductive Step : Ledger → Ledger → Prop where
  | submit (L : Ledger) (fl : List WriteOutcome) (ts raw : List Char)
      (msel : Option (List Char)) (loc : Location) (qty : Int) (dir : Direction)
      (hq : 1 ≤ qty)
      (hsel : ∀ m, msel = some m → m = placeholder ∨ m ∈ L.map Row.model) :
      Step L (modify_inventory ⟨L, fl⟩ ts (selectModel msel raw) loc qty dir).store.contents
  | undoStep (L : Ledger) (fl : List WriteOutcome) :
      Step L (undo_last ⟨L, fl⟩).store.contents
  | wipeStep (L : Ledger) (fl : List WriteOutcome) :
      Step L (wipe_database ⟨L, fl⟩).store.contents

/-- Ledgers reachable from the empty sheet through app operations. -/
inductive Reachable : Ledger → Prop where
  | empty : Reachable []
  | step {L L' : Ledger} : Reachable L → Step L L' → Reachable L'

/-- A sample committed row, used to instantiate theorems on concrete inputs. -/
def sampleRow (m : List Char) (l : Location) (q : Int) : Row :=
  { timestamp := "T".data, action := "Added".data, model := m, location := l, quantity := q }

/-! ## Helper lemmas on characters and normalization -/

theorem toNat_ofNat_valid (n : Nat) (h : n.isValidChar) : (Char.ofNat n).toNat = n := by
  simp [Char.ofNat, dif_pos h, Char.ofNatAux, Char.toNat, UInt32.toNat, BitVec.toNat_ofNatLt]

theorem char_eq_iff_toNat (c d : Char) : c = d ↔ c.toNat = d.toNat := by
  constructor
  · rintro rfl; rfl
  · intro h
    exact Char.eq_of_val_eq (UInt32.toNat.inj h)

theorem isWhitespace_iff (c : Char) :
    c.isWhitespace = true ↔ c.toNat = 32 ∨ c.toNat = 9 ∨ c.toNat = 13 ∨ c.toNat = 10 := by
  unfold Char.isWhitespace
  simp only [Bool.or_eq_true, decide_eq_true_eq]
  rw [char_eq_iff_toNat, char_eq_iff_toNat, char_eq_iff_toNat, char_eq_iff_toNat]
  rw [show (' ').toNat = 32 from rfl, show ('\t').toNat = 9 from rfl,
    show ('\x0d').toNat = 13 from rfl, show ('\n').toNat = 10 from rfl]
  tauto

theorem toUpper_isWhitespace (c : Char) : (c.toUpper).isWhitespace = c.isWhitespace := by
  unfold Char.toUpper
  by_cases h : c.toNat ≥ 97 ∧ c.toNat ≤ 122
  · rw [if_pos h]
    have ht : (Char.ofNat (c.toNat - 32)).toNat = c.toNat - 32 :=
      toNat_ofNat_valid _ (by left; omega)
    have h1 : (Char.ofNat (c.toNat - 32)).isWhitespace = false := by
      rw [Bool.eq_false_iff]
      intro hw
      rcases (isWhitespace_iff _).1 hw with h' | h' | h' | h' <;> omega
    have h2 : c.isWhitespace = false := by
      rw [Bool.eq_false_iff]
      intro hw
      rcases (isWhitespace_iff _).1 hw with h' | h' | h' | h' <;> omega
    rw [h1, h2]
  · rw [if_neg h]

theorem toUpper_toUpper (c : Char) : (c.toUpper).toUpper = c.toUpper := by
  unfold Char.toUpper
  by_cases h : c.toNat ≥ 97 ∧ c.toNat ≤ 122
  · rw [if_pos h]
    have ht : (Char.ofNat (c.toNat - 32)).toNat = c.toNat - 32 :=
      toNat_ofNat_valid _ (by left; omega)
    rw [ht, if_neg (by omega)]
  · rw [if_neg h, if_neg h]

theorem trimStr_eq_rdrop (s : List Char) :
    trimStr s = List.rdropWhile isWsChar (s.dropWhile isWsChar) := rfl

theorem trimStr_idem (s : List Char) : trimStr (trimStr s) = trimStr s := by
  rw [trimStr_eq_rdrop, trimStr_eq_rdrop]
  have hx : List.dropWhile isWsChar (s.dropWhile isWsChar) = s.dropWhile isWsChar :=
    List.dropWhile_idempotent isWsChar s
  set x := s.dropWhile isWsChar with hxdef
  have hpre : List.rdropWhile isWsChar x <+: x := List.rdropWhile_prefix isWsChar x
  have hA : List.dropWhile isWsChar (List.rdropWhile isWsChar x)
      = List.rdropWhile isWsChar x := by
    rw [List.dropWhile_eq_self_iff]
    intro hl
    have h0 : (0 : Nat) < x.length := lt_of_lt_of_le hl ( List.IsPrefix.length_le hpre)
    have hget : (List.rdropWhile isWsChar x).get ⟨0, hl⟩ = x.get ⟨0, h0⟩ := by
      simp only [List.get_eq_getElem]
      exact List.IsPrefix.getElem hpre hl
    rw [hget]
    exact (List.dropWhile_eq_self_iff.mp hx) h0
  rw [hA, List.rdropWhile_idempotent]

theorem isWsChar_comp_toUpper : isWsChar ∘ Char.toUpper = isWsChar := by
  funext c
  simp only [Function.comp_apply, isWsChar, toUpper_isWhitespace]

theorem upperStr_idem (s : List Char) : upperStr (upperStr s) = upperStr s := by
  simp only [upperStr, List.map_map]
  congr 1
  funext c
  exact toUpper_toUpper c

theorem dropWhile_map_upper (l : List Char) :
    List.dropWhile isWsChar (l.map Char.toUpper)
      = (List.dropWhile isWsChar l).map Char.toUpper := by
  rw [List.dropWhile_map, isWsChar_comp_toUpper]

theorem upperStr_trimStr (s : List Char) : upperStr (trimStr s) = trimStr (upperStr s) := by
  unfold upperStr trimStr
  rw [List.map_reverse, ← dropWhile_map_upper, List.map_reverse, ← dropWhile_map_upper]

theorem normalizeModel_idem (s : List Char) :
    normalizeModel (normalizeModel s) = normalizeModel s := by
  simp only [normalizeModel]
  rw [upperStr_trimStr, upperStr_idem, trimStr_idem]

theorem upperStr_normalizeModel (s : List Char) :
    upperStr (normalizeModel s) = normalizeModel s := by
  simp only [normalizeModel]
  rw [upperStr_trimStr, upperStr_idem]

theorem trimStr_normalizeModel (s : List Char) :
    trimStr (normalizeModel s) = normalizeModel s := by
  simp only [normalizeModel, trimStr_idem]

/-! ## Membership in the aggregate view -/

theorem mem_insertSorted (x y : List Char) (l : List (List Char)) :
    y ∈ insertSorted x l ↔ y = x ∨ y ∈ l := by
  induction l with
  | nil => simp [insertSorted]
  | cons z zs ih =>
    simp only [insertSorted]
    by_cases h : lexLt x z = true
    · rw [if_pos h]
      simp only [List.mem_cons]
    · rw [if_neg h]
      simp only [List.mem_cons, ih]
      tauto

theorem mem_sortStrs (y : List Char) (l : List (List Char)) :
    y ∈ sortStrs l ↔ y ∈ l := by
  induction l with
  | nil => simp [sortStrs]
  | cons z zs ih =>
    simp only [sortStrs, mem_insertSorted, List.mem_cons, ih]

theorem mem_uniqueModels (m : List Char) (L : Ledger) :
    m ∈ uniqueModels L ↔ m ∈ L.map Row.model := by
  rw [uniqueModels, mem_sortStrs, List.mem_dedup]

theorem reportRow_model (L : Ledger) (m : List Char) : (reportRow L m).model = m := rfl

theorem report_rows_eq (L : Ledger) :
    report_rows L = (uniqueModels L).filterMap (fun m =>
      if (reportRow L m).total ≠ 0 ∨ (reportRow L m).suspect ≠ 0
      then some (reportRow L m) else none) := rfl

theorem mem_report_rows (L : Ledger) (rr : ReportRow) :
    rr ∈ report_rows L ↔
      rr.model ∈ L.map Row.model ∧ rr = reportRow L rr.model ∧
        (rr.total ≠ 0 ∨ rr.suspect ≠ 0) := by
  rw [report_rows_eq, List.mem_filterMap]
  constructor
  · rintro ⟨m, hm, hf⟩
    split_ifs at hf with hc
    · have hrr : rr = reportRow L m := (Option.some.inj hf).symm
      have hmodel : rr.model = m := by rw [hrr, reportRow_model]
      subst hmodel
      exact ⟨(mem_uniqueModels _ _).1 hm, hrr, hrr ▸ hc⟩
  · rintro ⟨hm, heq, hc⟩
    refine ⟨rr.model, (mem_uniqueModels _ _).2 hm, ?_⟩
    rw [← heq, if_pos hc]


/-! ## Aggregation: subtotals, totals, inclusion -/

theorem subtotal_perm (L1 L2 : Ledger) (m : List Char) (l : Location) (h : L1.Perm L2) :
    subtotal L1 m l = subtotal L2 m l := by
  unfold subtotal
  exact List.Perm.sum_eq ((h.filter _).map _)

theorem viewSubtotal_reportRow (L : Ledger) (m : List Char) (l : Location) :
    viewSubtotal (reportRow L m) l = subtotal L m l := by
  cases l <;> rfl

/-- C1: for every ledger and every (model, location) pair, the aggregate
view's subtotal for that pair equals the sum of the signed quantities of
the ledger rows whose model and location equal that pair, and the value is
unchanged under any permutation of the ledger rows. -/
theorem C1_subtotal_is_orderfree_sum (L1 L2 : Ledger) (m : List Char)
    (l : Location) (rr : ReportRow)
    (hmem : rr ∈ report_rows L1) (hm : rr.model = m) (hperm : L1.Perm L2) :
    viewSubtotal rr l = ((L1.filter (mkey m l)).map Row.quantity).sum ∧
    viewSubtotal rr l = ((L2.filter (mkey m l)).map Row.quantity).sum := by
  have heq := ((mem_report_rows L1 rr).1 hmem).2.1
  constructor
  · rw [heq, hm, viewSubtotal_reportRow]
    rfl
  · rw [heq, hm, viewSubtotal_reportRow]
    calc subtotal L1 m l = subtotal L2 m l := subtotal_perm _ _ _ _ hperm
    _ = ((L2.filter (mkey m l)).map Row.quantity).sum := rfl

theorem C1_witness :
    viewSubtotal (reportRow [sampleRow ['A'] .Warehouse 2, sampleRow ['A'] .Assembly 3] ['A'])
        .Warehouse
      = ((([sampleRow ['A'] .Warehouse 2, sampleRow ['A'] .Assembly 3] : Ledger).filter
          (mkey ['A'] .Warehouse)).map Row.quantity).sum ∧
    viewSubtotal (reportRow [sampleRow ['A'] .Warehouse 2, sampleRow ['A'] .Assembly 3] ['A'])
        .Warehouse
      = ((([sampleRow ['A'] .Assembly 3, sampleRow ['A'] .Warehouse 2] : Ledger).filter
          (mkey ['A'] .Warehouse)).map Row.quantity).sum :=
  C1_subtotal_is_orderfree_sum
    [sampleRow ['A'] .Warehouse 2, sampleRow ['A'] .Assembly 3]
    [sampleRow ['A'] .Assembly 3, sampleRow ['A'] .Warehouse 2]
    ['A'] .Warehouse _ (by decide) (by decide)
    (List.Perm.swap (sampleRow ['A'] .Assembly 3) (sampleRow ['A'] .Warehouse 2) [])

/-- C2: every row of the aggregate view has `total = warehouse + assembly`,
where the warehouse and assembly fields are the corresponding ledger
subtotals; the suspect subtotal never contributes to the total. -/
theorem C2_total_excludes_suspect (L : Ledger) (rr : ReportRow)
    (h : rr ∈ report_rows L) :
    rr.total = rr.warehouse + rr.assembly ∧
    rr.warehouse = subtotal L rr.model .Warehouse ∧
    rr.assembly = subtotal L rr.model .Assembly ∧
    rr.suspect = subtotal L rr.model .Suspect ∧
    rr.total = subtotal L rr.model .Warehouse + subtotal L rr.model .Assembly := by
  have heq := ((mem_report_rows L rr).1 h).2.1
  refine ⟨?_, ?_, ?_, ?_, ?_⟩ <;> rw [heq] <;> rfl

theorem C2_witness :
    (reportRow [sampleRow ['A'] .Warehouse 2] ['A']).total
        = (reportRow [sampleRow ['A'] .Warehouse 2] ['A']).warehouse
          + (reportRow [sampleRow ['A'] .Warehouse 2] ['A']).assembly ∧
    (reportRow [sampleRow ['A'] .Warehouse 2] ['A']).warehouse
        = subtotal [sampleRow ['A'] .Warehouse 2]
            (reportRow [sampleRow ['A'] .Warehouse 2] ['A']).model .Warehouse ∧
    (reportRow [sampleRow ['A'] .Warehouse 2] ['A']).assembly
        = subtotal [sampleRow ['A'] .Warehouse 2]
            (reportRow [sampleRow ['A'] .Warehouse 2] ['A']).model .Assembly ∧
    (reportRow [sampleRow ['A'] .Warehouse 2] ['A']).suspect
        = subtotal [sampleRow ['A'] .Warehouse 2]
            (reportRow [sampleRow ['A'] .Warehouse 2] ['A']).model .Suspect ∧
    (reportRow [sampleRow ['A'] .Warehouse 2] ['A']).total
        = subtotal [sampleRow ['A'] .Warehouse 2]
            (reportRow [sampleRow ['A'] .Warehouse 2] ['A']).model .Warehouse
          + subtotal [sampleRow ['A'] .Warehouse 2]
            (reportRow [sampleRow ['A'] .Warehouse 2] ['A']).model .Assembly :=
  C2_total_excludes_suspect [sampleRow ['A'] .Warehouse 2] _ (by decide)

/-- C3: a model occurring in the ledger appears in the aggregate view iff
its warehouse-plus-assembly total is non-zero or its suspect subtotal is
non-zero. -/
theorem C3_inclusion_iff (L : Ledger) (m : List Char) (hocc : m ∈ L.map Row.model) :
    (∃ rr ∈ report_rows L, rr.model = m) ↔
      (subtotal L m .Warehouse + subtotal L m .Assembly ≠ 0 ∨
        subtotal L m .Suspect ≠ 0) := by
  constructor
  · rintro ⟨rr, hmem, hm⟩
    obtain ⟨-, heq, hc⟩ := (mem_report_rows L rr).1 hmem
    subst hm
    rcases hc with h | h
    · left
      rw [heq] at h
      exact h
    · right
      rw [heq] at h
      exact h
  · intro hc
    refine ⟨reportRow L m, ?_, rfl⟩
    rw [mem_report_rows]
    exact ⟨hocc, rfl, hc⟩

theorem C3_witness :
    ∃ rr ∈ report_rows [sampleRow ['X'] .Suspect 4], rr.model = ['X'] :=
  (C3_inclusion_iff [sampleRow ['X'] .Suspect 4] ['X'] (by decide)).mpr (by decide)


/-! ## Store writes, undo and validation -/

theorem tryWrite_ok_contents (s : Store) (data : Ledger)
    (h : (tryWrite s data).2 = .ok) : (tryWrite s data).1.contents = data := by
  obtain ⟨C, outs⟩ := s
  cases outs with
  | nil => simp [tryWrite]
  | cons o rest => cases o <;> simp_all [tryWrite]

theorem tryWrite_fail_contents (s : Store) (data : Ledger)
    (h : (tryWrite s data).2 ≠ .ok) : (tryWrite s data).1.contents = s.contents := by
  obtain ⟨C, outs⟩ := s
  cases outs with
  | nil => simp [tryWrite] at h
  | cons o rest => cases o <;> simp_all [tryWrite]

theorem modify_committed_contents (s : Store) (ts model : List Char) (loc : Location)
    (qty : Int) (dir : Direction)
    (h : (modify_inventory s ts model loc qty dir).committed = true) :
    (modify_inventory s ts model loc qty dir).store.contents
      = s.contents ++ [⟨ts, actionWord dir, model, loc, change dir qty⟩] := by
  by_cases hm : model = []
  · simp [modify_inventory, hm] at h
  · rw [modify_inventory] at h ⊢
    rw [if_neg hm] at h ⊢
    obtain ⟨C, outs⟩ := s
    cases outs with
    | nil => simp [tryWrite]
    | cons o rest => cases o <;> simp_all [tryWrite]

theorem undo_committed_contents (s : Store)
    (h : (undo_last s).committed = true) :
    (undo_last s).store.contents = s.contents.dropLast := by
  by_cases he : s.contents.isEmpty
  · simp [undo_last, he] at h
  · rw [undo_last] at h ⊢
    rw [if_neg he] at h ⊢
    obtain ⟨C, outs⟩ := s
    cases outs with
    | nil => simp [tryWrite]
    | cons o rest => cases o <;> simp_all [tryWrite]

/-- C4: after a successfully committed submission, a successful undo-last
restores the ledger (hence the aggregate view) to its exact pre-submission
state; undo-last on an empty ledger performs no mutation, makes no write
attempt and signals the user. -/
theorem C4_undo_reverts_last_commit (s : Store) (ts model : List Char) (loc : Location)
    (qty : Int) (dir : Direction)
    (h : (modify_inventory s ts model loc qty dir).committed = true)
    (hu : (undo_last (modify_inventory s ts model loc qty dir).store).committed = true) :
    (undo_last (modify_inventory s ts model loc qty dir).store).store.contents
      = s.contents ∧
    report_rows (undo_last (modify_inventory s ts model loc qty dir).store).store.contents
      = report_rows s.contents ∧
    ∀ s0 : Store, s0.contents = [] →
      undo_last s0 = { store := s0, committed := false, attempts := 0, userError := true } := by
  have h1 : (undo_last (modify_inventory s ts model loc qty dir).store).store.contents
      = s.contents := by
    rw [undo_committed_contents _ hu, modify_committed_contents s ts model loc qty dir h,
      List.dropLast_concat]
  refine ⟨h1, by rw [h1], ?_⟩
  intro s0 h0
  obtain ⟨C, outs⟩ := s0
  simp only at h0
  subst h0
  simp [undo_last]

theorem C4_witness :
    (undo_last (modify_inventory ⟨[], []⟩ ['T'] ['A'] .Warehouse 1 .add).store).store.contents
      = (⟨[], []⟩ : Store).contents ∧
    report_rows (undo_last
        (modify_inventory ⟨[], []⟩ ['T'] ['A'] .Warehouse 1 .add).store).store.contents
      = report_rows (⟨[], []⟩ : Store).contents ∧
    ∀ s0 : Store, s0.contents = [] →
      undo_last s0 = { store := s0, committed := false, attempts := 0, userError := true } :=
  C4_undo_reverts_last_commit ⟨[], []⟩ ['T'] ['A'] .Warehouse 1 .add (by decide) (by decide)

/-- C5: a submission whose model is empty after normalization (no dropdown
selection, typed text empty or whitespace-only) creates no row, performs no
write attempt, leaves the store untouched and shows a validation error. -/
theorem C5_empty_model_rejected (s : Store) (ts raw : List Char) (loc : Location)
    (qty : Int) (dir : Direction) (h : normalizeModel raw = []) :
    selectModel none raw = [] ∧
    modify_inventory s ts (selectModel none raw) loc qty dir
      = { store := s, committed := false, attempts := 0, userError := true } := by
  have hsel : selectModel none raw = [] := by
    simp [selectModel, h]
  refine ⟨hsel, ?_⟩
  rw [hsel]
  simp [modify_inventory]

theorem C5_witness :
    selectModel none [' ', ' ', ' '] = [] ∧
    modify_inventory ⟨[], []⟩ ['T'] (selectModel none [' ', ' ', ' ']) .Warehouse 1 .add
      = { store := ⟨[], []⟩, committed := false, attempts := 0, userError := true } :=
  C5_empty_model_rejected ⟨[], []⟩ ['T'] [' ', ' ', ' '] .Warehouse 1 .add (by decide)


/-! ## Reachable-state invariants -/

theorem modify_contents_cases (s : Store) (ts model : List Char) (loc : Location)
    (qty : Int) (dir : Direction) :
    (modify_inventory s ts model loc qty dir).store.contents = s.contents ∨
    (model ≠ [] ∧ (modify_inventory s ts model loc qty dir).store.contents
      = s.contents ++ [⟨ts, actionWord dir, model, loc, change dir qty⟩]) := by
  by_cases hm : model = []
  · left
    simp [modify_inventory, hm]
  · rw [modify_inventory, if_neg hm]
    obtain ⟨C, outs⟩ := s
    cases outs with
    | nil =>
      right
      exact ⟨hm, by simp [tryWrite]⟩
    | cons o rest =>
      cases o with
      | ok =>
        right
        exact ⟨hm, by simp [tryWrite]⟩
      | rateLimited =>
        left
        simp [tryWrite]
      | otherError =>
        left
        simp [tryWrite]

theorem undo_contents_cases (s : Store) :
    (undo_last s).store.contents = s.contents ∨
    (undo_last s).store.contents = s.contents.dropLast := by
  by_cases he : s.contents.isEmpty
  · left
    simp [undo_last, he]
  · rw [undo_last, if_neg he]
    obtain ⟨C, outs⟩ := s
    cases outs with
    | nil =>
      right
      simp [tryWrite]
    | cons o rest =>
      cases o with
      | ok =>
        right
        simp [tryWrite]
      | rateLimited =>
        left
        simp [tryWrite]
      | otherError =>
        left
        simp [tryWrite]

theorem wipe_contents_cases (s : Store) :
    (wipe_database s).store.contents = s.contents ∨
    (wipe_database s).store.contents = [] := by
  rw [wipe_database]
  obtain ⟨C, outs⟩ := s
  cases outs with
  | nil =>
    right
    simp [tryWrite]
  | cons o rest =>
    cases o with
    | ok =>
      right
      simp [tryWrite]
    | rateLimited =>
      left
      simp [tryWrite]
    | otherError =>
      left
      simp [tryWrite]

theorem selectModel_cases (msel : Option (List Char)) (raw : List Char) :
    selectModel msel raw = [] ∨
    selectModel msel raw = normalizeModel raw ∨
    ∃ m, msel = some m ∧ m ≠ [] ∧ m ≠ placeholder ∧ selectModel msel raw = m := by
  cases msel with
  | none =>
    by_cases h : normalizeModel raw = []
    · left
      simp [selectModel, h]
    · right; left
      simp [selectModel, h]
  | some m =>
    by_cases h1 : m ≠ [] ∧ m ≠ placeholder
    · right; right
      exact ⟨m, rfl, h1.1, h1.2, by simp [selectModel, h1]⟩
    · by_cases h2 : normalizeModel raw = []
      · left
        simp [selectModel, h1, h2]
      · right; left
        simp [selectModel, h1, h2]

/-- C6: starting from the empty ledger, every operation preserves the
invariant that every stored row has a non-zero quantity and a non-empty
model. -/
theorem C6_stored_rows_invariant (L : Ledger) (h : Reachable L) :
    ∀ r ∈ L, r.quantity ≠ 0 ∧ r.model ≠ [] := by
  induction h with
  | empty =>
    intro r hr
    cases hr
  | step hR hstep ih =>
    cases hstep with
    | submit fl ts raw msel loc qty dir hq hsel =>
      rcases modify_contents_cases ⟨_, fl⟩ ts (selectModel msel raw) loc qty dir with
        hc | ⟨hm, hc⟩
      · rw [hc]
        exact ih
      · rw [hc]
        intro r hr
        rcases List.mem_append.1 hr with h1 | h1
        · exact ih r h1
        · rcases List.mem_singleton.1 h1 with rfl
          refine ⟨?_, hm⟩
          cases dir with
          | add =>
            show qty ≠ 0
            omega
          | sub =>
            show -qty ≠ 0
            omega
    | undoStep fl =>
      rcases undo_contents_cases ⟨_, fl⟩ with hc | hc
      · rw [hc]
        exact ih
      · rw [hc]
        intro r hr
        exact ih r ((List.dropLast_sublist _).subset hr)
    | wipeStep fl =>
      rcases wipe_contents_cases ⟨_, fl⟩ with hc | hc
      · rw [hc]
        exact ih
      · rw [hc]
        intro r hr
        cases hr

theorem C6_witness :
    (sampleRow ['A'] .Warehouse 1).quantity ≠ 0 ∧
    (sampleRow ['A'] .Warehouse 1).model ≠ [] :=
  C6_stored_rows_invariant
    (modify_inventory ⟨[], []⟩ ['T'] (selectModel none ['a']) .Warehouse 1 .add).store.contents
    (Reachable.step Reachable.empty
      (Step.submit [] [] ['T'] ['a'] none .Warehouse 1 .add (by decide)
        (fun m hm => nomatch hm)))
    (sampleRow ['A'] .Warehouse 1) (by decide)

/-- C7: starting from the empty ledger, the model of every stored row is
uppercase and whitespace-trimmed, whichever input path (typed text or
quick-select dropdown) produced it. -/
theorem C7_models_normalized (L : Ledger) (h : Reachable L) :
    ∀ r ∈ L, upperStr r.model = r.model ∧ trimStr r.model = r.model := by
  induction h with
  | empty =>
    intro r hr
    cases hr
  | step hR hstep ih =>
    cases hstep with
    | submit fl ts raw msel loc qty dir hq hsel =>
      rcases modify_contents_cases ⟨_, fl⟩ ts (selectModel msel raw) loc qty dir with
        hc | ⟨hm, hc⟩
      · rw [hc]
        exact ih
      · rw [hc]
        intro r hr
        rcases List.mem_append.1 hr with h1 | h1
        · exact ih r h1
        · rcases List.mem_singleton.1 h1 with rfl
          show upperStr (selectModel msel raw) = selectModel msel raw ∧
            trimStr (selectModel msel raw) = selectModel msel raw
          rcases selectModel_cases msel raw with hs | hs | ⟨m, hmsel, hne, hpl, hs⟩
          · exact absurd hs hm
          · rw [hs]
            exact ⟨upperStr_normalizeModel raw, trimStr_normalizeModel raw⟩
          · rcases hsel m hmsel with hplm | hmem
            · exact absurd hplm hpl
            · rcases List.mem_map.1 hmem with ⟨r', hr', hrm⟩
              rw [hs, ← hrm]
              exact ih r' hr'
    | undoStep fl =>
      rcases undo_contents_cases ⟨_, fl⟩ with hc | hc
      · rw [hc]
        exact ih
      · rw [hc]
        intro r hr
        exact ih r ((List.dropLast_sublist _).subset hr)
    | wipeStep fl =>
      rcases wipe_contents_cases ⟨_, fl⟩ with hc | hc
      · rw [hc]
        exact ih
      · rw [hc]
        intro r hr
        cases hr

theorem C7_witness :
    upperStr (sampleRow ['A', 'B'] .Warehouse 1).model = (sampleRow ['A', 'B'] .Warehouse 1).model ∧
    trimStr (sampleRow ['A', 'B'] .Warehouse 1).model = (sampleRow ['A', 'B'] .Warehouse 1).model :=
  C7_models_normalized
    (modify_inventory ⟨[], []⟩ ['T'] (selectModel none [' ', 'a', 'b'])
      .Warehouse 1 .add).store.contents
    (Reachable.step Reachable.empty
      (Step.submit [] [] ['T'] [' ', 'a', 'b'] none .Warehouse 1 .add (by decide)
        (fun m hm => nomatch hm)))
    (sampleRow ['A', 'B'] .Warehouse 1) (by decide)


/-! ## Write-failure behavior, search filter, login -/

/-- C8 counterexample: with the first write attempt failing with a
rate-limit error and the next attempt bound to succeed, the code performs
exactly one attempt, commits nothing and leaves the sheet empty; the
claimed up-to-3-attempts retry policy (`spec_modify_inventory`, modelled
from the spec) would commit the row on its second attempt. -/
theorem C8_counterexample :
    (modify_inventory ⟨[], [.rateLimited, .ok]⟩ ['T'] ['A'] .Warehouse 1 .add).attempts
      = 1 ∧
    (modify_inventory ⟨[], [.rateLimited, .ok]⟩ ['T'] ['A'] .Warehouse 1 .add).committed
      = false ∧
    (modify_inventory ⟨[], [.rateLimited, .ok]⟩ ['T'] ['A'] .Warehouse 1 .add).store.contents
      = [] ∧
    (spec_modify_inventory ⟨[], [.rateLimited, .ok]⟩ ['T'] ['A'] .Warehouse 1 .add).committed
      = true ∧
    (spec_modify_inventory ⟨[], [.rateLimited, .ok]⟩ ['T'] ['A'] .Warehouse 1 .add).attempts
      = 2 := by
  decide

/-- C8 (amended): each mutating operation that reaches the store performs
exactly one write attempt; any failure — rate-limited or not — is surfaced
without retry, and on failure the ledger remains in its pre-operation
state with no row committed. -/
theorem C8_single_attempt_no_partial_write (s : Store) (ts model : List Char)
    (loc : Location) (qty : Int) (dir : Direction) (hm : model ≠ []) :
    ((modify_inventory s ts model loc qty dir).attempts = 1 ∧
      ((modify_inventory s ts model loc qty dir).committed = false →
        (modify_inventory s ts model loc qty dir).store.contents = s.contents)) ∧
    (s.contents ≠ [] →
      (undo_last s).attempts = 1 ∧
      ((undo_last s).committed = false → (undo_last s).store.contents = s.contents)) ∧
    ((wipe_database s).attempts = 1 ∧
      ((wipe_database s).committed = false →
        (wipe_database s).store.contents = s.contents)) := by
  obtain ⟨C, outs⟩ := s
  refine ⟨?_, ?_, ?_⟩
  · rw [modify_inventory, if_neg hm]
    cases outs with
    | nil => simp [tryWrite]
    | cons o rest => cases o <;> simp [tryWrite]
  · intro hne
    have he : (List.isEmpty C) = false := by
      cases C with
      | nil => exact absurd rfl hne
      | cons a l => rfl
    rw [undo_last]
    simp only [he, Bool.false_eq_true, if_false]
    cases outs with
    | nil => simp [tryWrite]
    | cons o rest => cases o <;> simp [tryWrite]
  · rw [wipe_database]
    cases outs with
    | nil => simp [tryWrite]
    | cons o rest => cases o <;> simp [tryWrite]

theorem C8_witness :
    ((modify_inventory ⟨[sampleRow ['A'] .Warehouse 2], [.otherError]⟩ ['T'] ['B']
        .Assembly 1 .sub).attempts = 1 ∧
      ((modify_inventory ⟨[sampleRow ['A'] .Warehouse 2], [.otherError]⟩ ['T'] ['B']
          .Assembly 1 .sub).committed = false →
        (modify_inventory ⟨[sampleRow ['A'] .Warehouse 2], [.otherError]⟩ ['T'] ['B']
            .Assembly 1 .sub).store.contents
          = (⟨[sampleRow ['A'] .Warehouse 2], [.otherError]⟩ : Store).contents)) ∧
    ((⟨[sampleRow ['A'] .Warehouse 2], [.otherError]⟩ : Store).contents ≠ [] →
      (undo_last ⟨[sampleRow ['A'] .Warehouse 2], [.otherError]⟩).attempts = 1 ∧
      ((undo_last ⟨[sampleRow ['A'] .Warehouse 2], [.otherError]⟩).committed = false →
        (undo_last ⟨[sampleRow ['A'] .Warehouse 2], [.otherError]⟩).store.contents
          = (⟨[sampleRow ['A'] .Warehouse 2], [.otherError]⟩ : Store).contents)) ∧
    ((wipe_database ⟨[sampleRow ['A'] .Warehouse 2], [.otherError]⟩).attempts = 1 ∧
      ((wipe_database ⟨[sampleRow ['A'] .Warehouse 2], [.otherError]⟩).committed = false →
        (wipe_database ⟨[sampleRow ['A'] .Warehouse 2], [.otherError]⟩).store.contents
          = (⟨[sampleRow ['A'] .Warehouse 2], [.otherError]⟩ : Store).contents)) :=
  C8_single_attempt_no_partial_write ⟨[sampleRow ['A'] .Warehouse 2], [.otherError]⟩
    ['T'] ['B'] .Assembly 1 .sub (by decide)

theorem reMatchHere_eq_substrAt (pat : List Char)
    (hmeta : ∀ c ∈ pat, isRegexMeta c = false) :
    ∀ s : List Char, reMatchHere pat s = substrAt pat s := by
  induction pat with
  | nil =>
    intro s
    cases s <;> rfl
  | cons p ps ih =>
    intro s
    cases s with
    | nil => rfl
    | cons c cs =>
      have hp : p ≠ '.' := by
        intro hpe
        have hmem := hmeta p (List.mem_cons_self _ _)
        rw [hpe] at hmem
        simp [isRegexMeta] at hmem
      simp only [reMatchHere, substrAt]
      rw [if_neg hp]
      rw [ih (fun d hd => hmeta d (List.mem_cons_of_mem _ hd)) cs]

theorem reSearch_eq_spec (pat : List Char)
    (hmeta : ∀ c ∈ pat, isRegexMeta c = false) (s : List Char) :
    reSearch pat s = spec_containsSubstring pat s := by
  induction s with
  | nil =>
    simp only [reSearch, spec_containsSubstring]
    exact reMatchHere_eq_substrAt pat hmeta []
  | cons c cs ih =>
    simp only [reSearch, spec_containsSubstring]
    rw [reMatchHere_eq_substrAt pat hmeta, ih]

/-- C9 counterexample: with the single aggregate row for model "AB" and the
non-empty search ".", the code displays the row — pandas `str.contains`
interprets the search as a regular expression whose dot matches any
character — although no model contains "." as a substring. -/
theorem C9_counterexample :
    df_display [sampleRow ['A', 'B'] .Warehouse 2] ['.']
      ≠ (report_rows [sampleRow ['A', 'B'] .Warehouse 2]).filter
          (fun rr => spec_containsCI ['.'] rr.model) := by
  decide

/-- C9 (amended): for a non-empty search string free of regex
metacharacters, over an aggregate view whose models are uppercase, the
displayed rows are exactly the aggregate rows whose model contains the
search string as a substring case-insensitively; every displayed row is an
unmodified aggregate row, so filtering never changes a subtotal. -/
theorem C9_literal_search_filters_substring (L : Ledger) (search : List Char)
    (hne : search ≠ [])
    (hmeta : ∀ c ∈ upperStr search, isRegexMeta c = false)
    (hup : ∀ rr ∈ report_rows L, upperStr rr.model = rr.model) :
    df_display L search
      = (report_rows L).filter (fun rr => spec_containsCI search rr.model) ∧
    ∀ rr ∈ df_display L search, rr ∈ report_rows L := by
  have hfeq : df_display L search
      = (report_rows L).filter (fun rr => reSearch (upperStr search) rr.model) := by
    rw [df_display, if_neg hne]
  constructor
  · rw [hfeq]
    apply List.filter_congr
    intro rr hrr
    rw [reSearch_eq_spec _ hmeta, spec_containsCI, hup rr hrr]
  · intro rr hrr
    rw [hfeq] at hrr
    exact List.mem_of_mem_filter hrr

theorem C9_witness :
    (df_display [sampleRow ['A', 'B'] .Warehouse 2] ['a']
      = (report_rows [sampleRow ['A', 'B'] .Warehouse 2]).filter
          (fun rr => spec_containsCI ['a'] rr.model) ∧
    ∀ rr ∈ df_display [sampleRow ['A', 'B'] .Warehouse 2] ['a'],
      rr ∈ report_rows [sampleRow ['A', 'B'] .Warehouse 2]) :=
  C9_literal_search_filters_substring [sampleRow ['A', 'B'] .Warehouse 2] ['a']
    (by decide) (by decide) (by decide)

/-- C10: with no configured secret the login gate accepts exactly the
string "blackbelt", and in general authentication succeeds iff the input
is character-for-character equal to the configured secret. -/
theorem C10_login_exact_equality :
    (∀ pwd : String, login_check none pwd = true ↔ pwd = "blackbelt") ∧
    (∀ secret pwd : String, login_check (some secret) pwd = true ↔ pwd = secret) := by
  constructor
  · intro pwd
    simp [login_check]
  · intro secret pwd
    simp [login_check]


end WarehouseApp
